import Mathlib

/-!
Verification of the openbar status-bar core (package `openbar`) against its
specification. The definitions below are a shallow embedding of the Go source:
the worker loop `scheduler.update`, the result plumbing `scheduler.do` /
`scheduler.wait`, the signal-id derivation, the `jitter` helper, the
`modules/command` text pipeline, and the `Run` orchestrator with its writer
loop. Concurrency (worker goroutines, the WaitGroup counter and the shared
channel) is modelled as an interleaved small-step transition system.
-/

namespace OpenBar

/-- A module update result, Go struct `result{idx int; out string; err error}`.
Errors are modelled by their message (`none` = nil error). -/
structure Result where
  idx : Nat
  out : String
  err : Option String
deriving DecidableEq, Repr

/-- Go constant `placeholder = "..."`. -/
def placeholder : String := "..."

/-- Go `broadcast = syscall.SIGUSR1` (10 on Linux). -/
def broadcast : Nat := 10

/-- Go constant `sigRtMin = 0x22`. -/
def sigRtMin : Nat := 0x22

/-- Go constant `sigRtMax = 0x40`. -/
def sigRtMax : Nat := 0x40

/-- The individual reload signal id the worker for cell `i` registers,
from `scheduler.update`: `id := sigRtMin + ((i+1) % sigRtMax)`. -/
def signalId (i : Nat) : Nat := sigRtMin + ((i + 1) % sigRtMax)

/-- The slot formula as worded by the spec (comparison definition, not from
the source): slot = `MIN + ((i+1) mod (MAX-MIN))` over the signal space
`[MIN, MAX)` of size `sigRtMax - sigRtMin = 30`. -/
def specSlot (i : Nat) : Nat := sigRtMin + ((i + 1) % (sigRtMax - sigRtMin))

/-- One event a worker's `select` can wake up on: context cancellation,
a tick of the ticker `t2`, the one-shot jitter timer `t1` firing, or an
OS signal arriving on `sigc`. -/
inductive WEvent where
  | ctxDone
  | tick
  | jitterFire
  | signal (sig : Nat)
deriving DecidableEq, Repr

/-- The state a worker loop threads between iterations: the current period
of ticker `t2` (nanoseconds), how many times the module has been invoked,
and whether the loop is still running. -/
structure WorkerState where
  tickerPeriod : Int
  calls : Nat
  running : Bool
deriving DecidableEq, Repr

/-- Worker-local state right after the preamble of `scheduler.update`:
the ticker starts with period `j + 1` (strictly larger than the jitter
timer `j`), no module call has happened yet. -/
def initWorker (j : Int) : WorkerState := ⟨j + 1, 0, true⟩

/-- The Result produced by the next module invocation for cell `i`. Modules
are modelled as a stream `m : Nat → String × Option String` giving the
output of the k-th invocation. -/
def moduleResult (i : Nat) (m : Nat → String × Option String) (st : WorkerState) : Result :=
  ⟨i, (m st.calls).1, (m st.calls).2⟩

/-- Go `scheduler.do`: invoke the module and send `result{idx, out, err}`. -/
def doStep (i : Nat) (m : Nat → String × Option String) (st : WorkerState) :
    WorkerState × List Result :=
  ({ st with calls := st.calls + 1 }, [moduleResult i m st])

/-- Go `scheduler.wait`: send `result{idx, placeholder, nil}`. -/
def waitRes (i : Nat) : Result := ⟨i, placeholder, none⟩

/-- One iteration of the `for { select { ... } ; s.do(i, m) }` loop of
`scheduler.update`, handling a single event. Mirrors the Go control flow:
every case except `ctx.Done()` falls through to `s.do(i, m)`; the jitter
timer case first runs `t2.Reset(d)`; a broadcast signal first runs
`s.wait(i)`, sleeps the jitter, then `t2.Reset(d)`; a non-broadcast signal
`break`s out of the select straight to `s.do`. Returns the new state and
the Results sent on the shared channel, in send order. -/
def handleEvent (i : Nat) (d : Int) (m : Nat → String × Option String)
    (st : WorkerState) : WEvent → WorkerState × List Result
  | .ctxDone => ({ st with running := false }, [])
  | .tick => doStep i m st
  | .jitterFire => doStep i m { st with tickerPeriod := d }
  | .signal sig =>
      if sig ≠ broadcast then
        doStep i m st
      else
        let st2 := { st with tickerPeriod := d }
        let (st3, rs) := doStep i m st2
        (st3, waitRes i :: rs)

/-- Run the worker loop over a list of delivered events, stopping once the
loop has returned (after `ctx.Done()`). -/
def runWorker (i : Nat) (d : Int) (m : Nat → String × Option String) :
    WorkerState → List WEvent → WorkerState × List Result
  | st, [] => (st, [])
  | st, e :: es =>
      if st.running then
        let (st2, rs) := handleEvent i d m st e
        let (st3, rs2) := runWorker i d m st2 es
        (st3, rs ++ rs2)
      else (st, [])

/-- All Results the worker for cell `i` sends, in order, for a given event
schedule: `scheduler.update` calls `s.wait(i)` before entering the loop. -/
def workerEmits (i : Nat) (d j : Int) (m : Nat → String × Option String)
    (evs : List WEvent) : List Result :=
  waitRes i :: (runWorker i d m (initWorker j) evs).2

/-- Model of `rand.Intn`: an arbitrary source state `r` mapped into
`[0, bound)`; every value of this form is a possible return of `Intn`. -/
def intn (r bound : Nat) : Nat := r % bound

/-- Go `time.Millisecond` in nanoseconds. -/
def millisecond : Int := 1000000

/-- Go `jitter(max int) time.Duration`: zero if `max == 0`, otherwise
`time.Duration(rand.Intn(max)) * time.Millisecond`. The random source
state is the extra argument `r`. -/
def jitter (max : Nat) (r : Nat) : Int :=
  if max = 0 then 0 else (intn r max : Int) * millisecond

/-- The character set trimmed by Go `strings.TrimSpace` (ASCII cutset;
the rarely relevant Unicode space runes are not modelled). -/
def goIsSpace (c : Char) : Bool :=
  c = ' ' || c = '\t' || c = '\n' || c = '\x0b' || c = '\x0c' || c = '\r'

/-- Go `strings.TrimSpace`: drop leading and trailing whitespace. -/
def trimSpace (s : String) : String :=
  ⟨((s.data.dropWhile goIsSpace).reverse.dropWhile goIsSpace).reverse⟩

/-- Helper for `line`: everything up to and including the first newline. -/
def lineChars : List Char → List Char
  | [] => []
  | c :: cs => if c = '\n' then [c] else c :: lineChars cs

/-- Go `line(b *bytes.Buffer)`: `ReadString(0x0A)` returns the text up to
and including the first newline, or the whole buffer at EOF (a
`bytes.Buffer` produces no error other than EOF, so the panic branch is
unreachable). -/
def line (s : String) : String := ⟨lineChars s.data⟩

/-- Go `verbose(err, info)`: append the trimmed diagnostic after the error
message, only if it is non-empty (`fmt.Errorf("%w: %s", err, clean)`). -/
def verbose (err info : String) : String :=
  let clean := trimSpace info
  if clean = "" then err else err ++ ": " ++ clean

/-- Go `pad(v)`: trim, then wrap in one leading and one trailing space,
or return the empty string when the trimmed text is empty. -/
def pad (v : String) : String :=
  let clean := trimSpace v
  if clean = "" then "" else " " ++ clean ++ " "

/-- Go `do(args...)` of `modules/command`: the process outcome is modelled
as `runErr` (the message of `cmd.Run()`'s error, `none` on success)
together with the captured stdout and stderr buffers. On failure return
`("", verbose(err, line(stderr)))`; on success return
`(pad(line(stdout)), nil)`. -/
def cmdDo (runErr : Option String) (stdout stderr : String) : String × Option String :=
  match runErr with
  | some e => ("", some (verbose e (line stderr)))
  | none => (pad (line stdout), none)

/-- Go struct `Header` (sway-protocol preamble). -/
structure Header where
  version : Nat
  clickEvents : Bool
  contSignal : Nat
  stopSignal : Nat
deriving DecidableEq, Repr

/-- Go `defaultHeader`: version 1, no click events, SIGCONT (18) and
SIGSTOP (19) on Linux. -/
def defaultHeader : Header := ⟨1, false, 18, 19⟩

/-- JSON escaping for one character (the escapes Go `json.Marshal` applies
that are relevant to plain module text). -/
def escapeChar (c : Char) : List Char :=
  if c = '"' then ['\\', '"']
  else if c = '\\' then ['\\', '\\']
  else if c = '\n' then ['\\', 'n']
  else if c = '\t' then ['\\', 't']
  else if c = '\r' then ['\\', 'r']
  else [c]

/-- JSON serialization of a string value. -/
def jsonString (s : String) : String :=
  "\"" ++ ⟨(s.data.map escapeChar).flatten⟩ ++ "\""

/-- `json.Marshal` of `Header`: fields in declaration order with their
`json:"..."` tags. -/
def headerJSON (h : Header) : String :=
  "\x7b\"version\":" ++ toString h.version
    ++ ",\"click_events\":" ++ (if h.clickEvents then "true" else "false")
    ++ ",\"cont_signal\":" ++ toString h.contSignal
    ++ ",\"stop_signal\":" ++ toString h.stopSignal ++ "\x7d"

/-- Go struct `Block` (only `full_text` is implemented). -/
structure Block where
  fullText : String
deriving DecidableEq, Repr

/-- `json.Marshal` of one `Block`. -/
def blockJSON (b : Block) : String :=
  "\x7b\"full_text\":" ++ jsonString b.fullText ++ "\x7d"

/-- `json.Marshal` of the block slice. -/
def blocksJSON (bs : List Block) : String :=
  "[" ++ String.intercalate "," (bs.map blockJSON) ++ "]"

/-- The bytes of the one `write(cfg.out, defaultHeader, 0x0A, 0x5B)` call:
marshalled header, newline, opening bracket. -/
def headerChunk : String := headerJSON defaultHeader ++ "\n["

/-- The body chunks `Run`'s consume loop writes, in order. For each
received Result it sets `b[res.idx].FullText = res.out` and attempts
`write(cfg.out, b, 0x2C)`; `bw k` is the outcome of the k-th body write
(`none` = success, `some msg` = `w.Write` failed with that error, in which
case this chunk does not reach the output). -/
def runChunks (bw : Nat → Option String) : Nat → List Block → List Result → List String
  | _, _, [] => []
  | k, b, r :: rs =>
      let b2 := b.set r.idx ⟨r.out⟩
      (match bw k with
       | none => [blocksJSON b2 ++ ","]
       | some _ => []) ++ runChunks bw (k + 1) b2 rs

/-- The log lines `Run`'s consume loop produces, in order: `debug(res.err)`
then `debug(write(...))` for each received Result. -/
def runLogs (bw : Nat → Option String) : Nat → List Block → List Result → List String
  | _, _, [] => []
  | k, b, r :: rs =>
      let b2 := b.set r.idx ⟨r.out⟩
      (match r.err with
       | some msg => [msg]
       | none => []) ++
      (match bw k with
       | none => []
       | some msg => [msg]) ++
      runLogs bw (k + 1) b2 rs

/-- What `Run` produced by the end of a run: the returned error, whether
the per-cell workers were started, the successfully written output chunks
in order, and the log lines. -/
structure RunResult where
  retErr : Option String
  workersStarted : Bool
  output : List String
  logs : List String
deriving DecidableEq, Repr

/-- Go `Run(ctx, opts...)`: `headerErr` is the outcome of the header write
(`none` = success), `bw` the outcomes of the body writes, `n = len(cfg.cells)`,
and `results` the Results received from `scheduler.out`, in receive
order, until the channel closed. If the header write fails, Run returns
that error before starting any worker; otherwise it consumes the channel
(blocks start as `make([]Block, n)`, all empty) and returns nil. -/
def Run (headerErr : Option String) (bw : Nat → Option String) (n : Nat)
    (results : List Result) : RunResult :=
  match headerErr with
  | some e => ⟨some e, false, [], []⟩
  | none =>
      ⟨none, true,
        headerChunk :: runChunks bw 0 (List.replicate n ⟨""⟩) results,
        runLogs bw 0 (List.replicate n ⟨""⟩) results⟩

/-- Status of one worker goroutine spawned by `Run`. -/
inductive WStatus where
  | running
  | exited
deriving DecidableEq, Repr

/-- Whether a worker is still running. -/
def isRunning : WStatus → Bool
  | .running => true
  | .exited => false

/-- Number of running workers — what the WaitGroup counter tracks. -/
def runningCount (ws : List WStatus) : Nat := ws.countP isRunning

/-- Interleaved state of the concurrent system built by `bootstrap` and
`Run`: the cancellation flag (`ctx`), the workers, the WaitGroup counter,
the channel buffer contents, the channel's closed flag, the ghost list of
all Results ever sent, the Results the writer has received, and whether
the writer's `for res := range scheduler.out` loop has observed the close
and ended. -/
structure SysState where
  cancel : Bool
  workers : List WStatus
  counter : Nat
  buffer : List Result
  closed : Bool
  sent : List Result
  received : List Result
  writerDone : Bool
deriving DecidableEq, Repr

/-- The system right after `bootstrap(n)` and the `go scheduler.update`
launches: `wg.Add(size)` sets the counter to `n`, the channel (capacity
`n`) is empty and open, all `n` workers run. -/
def initSys (n : Nat) : SysState :=
  ⟨false, List.replicate n .running, n, [], false, [], [], false⟩

/-- One interleaved step of the system. `cancelFire` is the context being
cancelled; `send` is a running worker placing a Result for its own index
into the non-full channel buffer; `workerExit` is a worker observing
cancellation, returning, and running its deferred `wg.Done()`; `close` is
the `go func() { defer close(out); wg.Wait() }()` goroutine closing the
channel once the counter is zero; `recv` is the writer consuming the
oldest buffered Result; `finish` is the writer's range loop observing the
close of the drained channel and ending. -/
inductive Step : SysState → SysState → Prop where
  | cancelFire (s : SysState) :
      Step s { s with cancel := true }
  | send (s : SysState) (i : Nat) (r : Result)
      (hi : s.workers[i]? = some WStatus.running) (hr : r.idx = i)
      (hcap : s.buffer.length < s.workers.length) :
      Step s { s with buffer := s.buffer ++ [r], sent := s.sent ++ [r] }
  | workerExit (s : SysState) (i : Nat)
      (hi : s.workers[i]? = some WStatus.running) (hc : s.cancel = true) :
      Step s { s with workers := s.workers.set i .exited, counter := s.counter - 1 }
  | close (s : SysState) (hz : s.counter = 0) (hn : s.closed = false) :
      Step s { s with closed := true }
  | recv (s : SysState) (r : Result) (rest : List Result) (hb : s.buffer = r :: rest) :
      Step s { s with buffer := rest, received := s.received ++ [r] }
  | finish (s : SysState) (hc : s.closed = true) (hb : s.buffer = [])
      (hw : s.writerDone = false) :
      Step s { s with writerDone := true }

/-- States the system can reach from `initSys n`. -/
inductive Reachable (n : Nat) : SysState → Prop where
  | init : Reachable n (initSys n)
  | step : ∀ {s t : SysState}, Reachable n s → Step s t → Reachable n t

/-- The inductive invariant of the system: the worker list keeps its size;
the WaitGroup counter counts the running workers; a closed channel means
the counter reached zero; before cancellation no worker has exited; the
sent Results are exactly the received ones followed by the buffered ones;
and a finished writer means the channel was closed and drained. -/
def Inv (n : Nat) (s : SysState) : Prop :=
  s.workers.length = n ∧
  s.counter = runningCount s.workers ∧
  (s.closed = true → s.counter = 0) ∧
  (s.cancel = false → runningCount s.workers = s.workers.length) ∧
  s.sent = s.received ++ s.buffer ∧
  (s.writerDone = true → s.closed = true ∧ s.buffer = [])

/-- A fully shut-down one-worker system (used to exercise the shutdown
theorem on a concrete reachable state). -/
def sFinal : SysState := ⟨true, [WStatus.exited], 0, [], true, [], [], true⟩

/-- Claim C1: the code derives the reload signal id for cell `i` as
`sigRtMin + ((i+1) mod sigRtMax)`, not `sigRtMin + ((i+1) mod (sigRtMax -
sigRtMin))` as the spec states. Evaluating at the failing input `i = 30`:
the code yields 65, which exceeds `sigRtMax = 64` (so the id never cycles
back to SIGRTMIN, contradicting the README), while the spec formula yields
35; indices 0 and 30 are congruent modulo the space size 30 yet receive
different ids from the code. -/
theorem signalId_eval_at_30 :
    signalId 30 = 65 ∧ specSlot 30 = 35 ∧ sigRtMax = 64 ∧ sigRtMax < signalId 30 ∧
    signalId 0 = 35 ∧ signalId 0 ≠ signalId 30 := by
  decide

/-- Claim C2, counterexample: at a concrete input (cell 0, interval 5,
jitter 2, a module returning "hello"), the loop iteration handling the
jitter-timer fire emits a module Result — refuting the claim that this
step does not invoke the module or emit a Result. -/
theorem jitterFire_emits_concrete :
    (handleEvent 0 5 (fun _ => ("hello", none)) (initWorker 2) .jitterFire).2
      = [⟨0, "hello", none⟩] ∧
    (handleEvent 0 5 (fun _ => ("hello", none)) (initWorker 2) .jitterFire).2 ≠ [] := by
  decide

/-- Claim C2, amended: when the jitter timer fires, the step resets the
ticker's period to the configured interval `d` and then falls through to
invoke the module once, emitting exactly its Result (this is the first
paint). -/
theorem jitterFire_resets_and_updates (i : Nat) (d : Int)
    (m : Nat → String × Option String) (st : WorkerState) :
    (handleEvent i d m st .jitterFire).1.tickerPeriod = d ∧
    (handleEvent i d m st .jitterFire).2 = [⟨i, (m st.calls).1, (m st.calls).2⟩] ∧
    (handleEvent i d m st .jitterFire).1.calls = st.calls + 1 := by
  refine ⟨rfl, ?_, rfl⟩
  simp [handleEvent, doStep, moduleResult]

/-- Claim C6: handling a broadcast reload signal sends the placeholder
Result `(i, "...", nil)` first and the module's Result second (after the
ticker has been reset to `d`), so in the channel's per-sender order the
placeholder for cell `i` precedes that cell's next real value. -/
theorem broadcast_placeholder_first (i : Nat) (d : Int)
    (m : Nat → String × Option String) (st : WorkerState) :
    (handleEvent i d m st (.signal broadcast)).2
      = [⟨i, placeholder, none⟩, ⟨i, (m st.calls).1, (m st.calls).2⟩] ∧
    (handleEvent i d m st (.signal broadcast)).1.tickerPeriod = d := by
  constructor
  · simp [handleEvent, doStep, moduleResult, waitRes]
  · simp [handleEvent, doStep]

/-- Claim C8: `jitter` returns 0 when the maximum is 0, and for every
positive maximum and every state of the random source it returns `d`
milliseconds for some `d` with `0 ≤ d < max`. -/
theorem jitter_bounds (max r : Nat) :
    jitter 0 r = 0 ∧
    ∃ d : Nat, d < max + 1 ∧ jitter (max + 1) r = (d : Int) * millisecond := by
  constructor
  · simp [jitter]
  · exact ⟨r % (max + 1), Nat.mod_lt _ (Nat.succ_pos _), by simp [jitter, intn]⟩

/-- Claim C10: the very first Result a worker sends — before any timer or
signal event and before its first module invocation (`calls = 0` at that
point) — is `(i, "...", nil)`, for every event schedule, including ones
with no broadcast signal at all. -/
theorem worker_first_emit (i : Nat) (d j : Int)
    (m : Nat → String × Option String) (evs : List WEvent) :
    (workerEmits i d j m evs).head? = some ⟨i, "...", none⟩ ∧
    (initWorker j).calls = 0 :=
  ⟨rfl, rfl⟩

/-- Claim C9: for every invocation of the command module, on process
failure it returns empty text and an error equal to the underlying failure
with the trimmed first line of captured stderr appended exactly when that
line is non-empty; on success it returns a nil error and the first line of
captured stdout trimmed and wrapped in one leading and one trailing space,
or the empty string when the trimmed line is empty. -/
theorem cmdDo_spec (e so se : String) :
    cmdDo (some e) so se
      = ("", some (if trimSpace (line se) = "" then e
                   else e ++ ": " ++ trimSpace (line se))) ∧
    cmdDo none so se
      = ((if trimSpace (line so) = "" then ""
          else " " ++ trimSpace (line so) ++ " "), none) :=
  ⟨rfl, rfl⟩

theorem string_data_append (s t : String) : (s ++ t).data = s.data ++ t.data := rfl

theorem body_ne_header (bs : List Block) : blocksJSON bs ++ "," ≠ headerChunk := by
  intro h
  have hd : (blocksJSON bs ++ ",").data.head? = headerChunk.data.head? := by rw [h]
  have hl : (blocksJSON bs ++ ",").data.head? = some '[' := by
    simp [blocksJSON, string_data_append]
  have hr : headerChunk.data.head? = some '\x7b' := by decide
  rw [hl, hr] at hd
  exact absurd (Option.some.inj hd) (by decide)

theorem runChunks_shape (bw : Nat → Option String) (rs : List Result) :
    ∀ (k : Nat) (b : List Block) (c : String), c ∈ runChunks bw k b rs →
      ∃ bs : List Block, bs.length = b.length ∧ c = blocksJSON bs ++ "," := by
  induction rs with
  | nil =>
      intro k b c hc
      simp [runChunks] at hc
  | cons r rs ih =>
      intro k b c hc
      simp only [runChunks] at hc
      cases hbw : bw k with
      | none =>
          rw [hbw] at hc
          simp at hc
          rcases hc with hc | hc
          · exact ⟨b.set r.idx ⟨r.out⟩, by simp, hc⟩
          · obtain ⟨bs, hlen, he⟩ := ih (k + 1) (b.set r.idx ⟨r.out⟩) c hc
            exact ⟨bs, by simpa using hlen, he⟩
      | some msg =>
          rw [hbw] at hc
          simp at hc
          obtain ⟨bs, hlen, he⟩ := ih (k + 1) (b.set r.idx ⟨r.out⟩) c hc
          exact ⟨bs, by simpa using hlen, he⟩

theorem runLogs_mem (bw : Nat → Option String) (rs : List Result) :
    ∀ (k : Nat) (b : List Block) (r : Result), r ∈ rs →
      ∀ msg, r.err = some msg → msg ∈ runLogs bw k b rs := by
  induction rs with
  | nil =>
      intro k b r hr
      simp at hr
  | cons r0 rs ih =>
      intro k b r hr msg hmsg
      simp only [runLogs]
      rcases List.mem_cons.mp hr with hr | hr
      · subst hr
        rw [hmsg]
        simp
      · have := ih (k + 1) (b.set r0.idx ⟨r0.out⟩) r hr msg hmsg
        simp [this]

/-- Claim C3: Run returns an error exactly when the header write fails, and
then returns before starting any worker and with nothing written; when the
header write succeeds Run returns nil whatever the workers' Results and
body-write outcomes were (so on cancellation it returns nil), and every
module invocation error is logged rather than returned. -/
theorem run_error_policy (e : String) (bw : Nat → Option String) (n : Nat)
    (rs : List Result) :
    (Run (some e) bw n rs).retErr = some e ∧
    (Run (some e) bw n rs).workersStarted = false ∧
    (Run (some e) bw n rs).output = [] ∧
    (Run none bw n rs).retErr = none ∧
    (∀ r ∈ rs, ∀ msg, r.err = some msg → msg ∈ (Run none bw n rs).logs) := by
  refine ⟨rfl, rfl, rfl, rfl, ?_⟩
  intro r hr msg hmsg
  exact runLogs_mem bw rs 0 (List.replicate n ⟨""⟩) r hr msg hmsg

theorem run_error_policy_witness :
    "boom" ∈ (Run none (fun _ => none) 1 [⟨0, "x", some "boom"⟩]).logs :=
  (run_error_policy "e" (fun _ => none) 1 [⟨0, "x", some "boom"⟩]).2.2.2.2
    ⟨0, "x", some "boom"⟩ (by decide) "boom" rfl

/-- Claim C4: when the header write succeeds, the output of Run begins
with exactly one header chunk — the marshalled Header object followed by a
newline and the byte `[` — before any body line, and no later chunk is the
header again (every later chunk is a marshalled block array plus a comma
separator). -/
theorem run_header_once (bw : Nat → Option String) (n : Nat) (rs : List Result) :
    (Run none bw n rs).output.head? = some headerChunk ∧
    ∀ c ∈ (Run none bw n rs).output.drop 1,
      (∃ bs : List Block, c = blocksJSON bs ++ ",") ∧ c ≠ headerChunk := by
  refine ⟨rfl, ?_⟩
  intro c hc
  have hc2 : c ∈ runChunks bw 0 (List.replicate n ⟨""⟩) rs := by
    simpa [Run] using hc
  obtain ⟨bs, _, he⟩ := runChunks_shape bw rs 0 _ c hc2
  exact ⟨⟨bs, he⟩, he ▸ body_ne_header bs⟩

theorem run_header_once_witness :
    (Run none (fun _ => none) 1 [⟨0, "hi", none⟩]).output.head? = some headerChunk ∧
    ((∃ bs : List Block, blocksJSON [⟨"hi"⟩] ++ "," = blocksJSON bs ++ ",") ∧
      blocksJSON [⟨"hi"⟩] ++ "," ≠ headerChunk) :=
  ⟨(run_header_once (fun _ => none) 1 [⟨0, "hi", none⟩]).1,
   (run_header_once (fun _ => none) 1 [⟨0, "hi", none⟩]).2 _ (by decide)⟩

/-- Claim C5: the writer's block sequence always has as many entries as
there are configured cells — it starts as `make([]Block, n)` and each
consumed Result only overwrites one entry — so every emitted body line is
a marshalled array of exactly `n` Block entries. Results received from the
workers carry indices below `n`. -/
theorem run_body_length (bw : Nat → Option String) (n : Nat) (rs : List Result)
    (_hidx : ∀ r ∈ rs, r.idx < n) :
    ∀ c ∈ (Run none bw n rs).output.drop 1,
      ∃ bs : List Block, bs.length = n ∧ c = blocksJSON bs ++ "," := by
  intro c hc
  have hc2 : c ∈ runChunks bw 0 (List.replicate n ⟨""⟩) rs := by
    simpa [Run] using hc
  obtain ⟨bs, hlen, he⟩ := runChunks_shape bw rs 0 _ c hc2
  exact ⟨bs, by simpa using hlen, he⟩

theorem run_body_length_witness :
    (∀ r ∈ ([⟨0, "a", none⟩, ⟨1, "b", none⟩] : List Result), r.idx < 2) ∧
    ∃ bs : List Block, bs.length = 2 ∧
      blocksJSON [⟨"a"⟩, ⟨"b"⟩] ++ "," = blocksJSON bs ++ "," :=
  ⟨by decide,
   run_body_length (fun _ => none) 2 [⟨0, "a", none⟩, ⟨1, "b", none⟩]
     (by decide) _ (by decide)⟩

theorem runningCount_replicate (n : Nat) :
    runningCount (List.replicate n WStatus.running) = n := by
  induction n with
  | zero => rfl
  | succ k ih =>
      simp [List.replicate_succ, runningCount, List.countP_cons, isRunning] at *
      omega

theorem runningCount_cons (a : WStatus) (t : List WStatus) :
    runningCount (a :: t) = runningCount t + if isRunning a then 1 else 0 := by
  simp [runningCount, List.countP_cons]

theorem runningCount_pos_of_mem {l : List WStatus} (h : WStatus.running ∈ l) :
    1 ≤ runningCount l :=
  List.countP_pos_iff.mpr ⟨_, h, rfl⟩

theorem runningCount_set_exited :
    ∀ (l : List WStatus) (i : Nat), l[i]? = some WStatus.running →
      runningCount (l.set i WStatus.exited) = runningCount l - 1
  | [], i, h => by simp at h
  | a :: t, 0, h => by
      have ha : a = WStatus.running := by simpa using h
      subst ha
      rw [List.set_cons_zero, runningCount_cons, runningCount_cons]
      simp [isRunning]
  | a :: t, j + 1, h => by
      have ht : t[j]? = some WStatus.running := by simpa using h
      have h1 := runningCount_set_exited t j ht
      have h2 : 1 ≤ runningCount t :=
        runningCount_pos_of_mem (List.getElem?_mem ht)
      rw [List.set_cons_succ, runningCount_cons, runningCount_cons, h1]
      cases ha : isRunning a <;> simp <;> omega

theorem reachable_inv {n : Nat} {s : SysState} (h : Reachable n s) : Inv n s := by
  induction h with
  | init =>
      refine ⟨by simp [initSys], ?_, ?_, ?_, ?_, ?_⟩
      · simp [initSys, runningCount_replicate]
      · intro hc; simp [initSys] at hc
      · intro _; simp [initSys, runningCount_replicate]
      · simp [initSys]
      · intro hw; simp [initSys] at hw
  | @step s t hr hstep ih =>
      obtain ⟨i1, i2, i3, i4, i5, i6⟩ := ih
      cases hstep with
      | cancelFire =>
          exact ⟨i1, i2, i3, by intro hc; simp at hc, i5, i6⟩
      | send i r hi hr2 hcap =>
          refine ⟨i1, i2, i3, i4, ?_, ?_⟩
          · show s.sent ++ [r] = s.received ++ (s.buffer ++ [r])
            rw [i5, List.append_assoc]
          · intro hw
            exfalso
            obtain ⟨hcl, _⟩ := i6 hw
            have hz : s.counter = 0 := i3 hcl
            have hpos : 1 ≤ runningCount s.workers :=
              runningCount_pos_of_mem (List.getElem?_mem hi)
            omega
      | workerExit i hi hc =>
          have hdec := runningCount_set_exited s.workers i hi
          have hge : 1 ≤ runningCount s.workers :=
            runningCount_pos_of_mem (List.getElem?_mem hi)
          refine ⟨by simp [i1], ?_, ?_, ?_, i5, i6⟩
          · show s.counter - 1 = runningCount (s.workers.set i WStatus.exited)
            omega
          · intro hcl
            have hz := i3 hcl
            show s.counter - 1 = 0
            omega
          · intro hcf
            exfalso
            have : s.cancel = false := hcf
            rw [this] at hc
            exact Bool.false_ne_true hc
      | close hz hn =>
          exact ⟨i1, i2, fun _ => hz, i4, i5, fun hw => ⟨rfl, (i6 hw).2⟩⟩
      | recv r rest hb =>
          refine ⟨i1, i2, i3, i4, ?_, ?_⟩
          · show s.sent = s.received ++ [r] ++ rest
            rw [i5, hb, List.append_assoc]
            rfl
          · intro hw
            exfalso
            obtain ⟨_, hbe⟩ := i6 hw
            rw [hbe] at hb
            simp at hb
      | finish hc hb hw =>
          exact ⟨i1, i2, i3, i4, i5, fun _ => ⟨hc, hb⟩⟩

/-- Claim C7: in the interleaved model of `bootstrap` and the worker loops:
(1) if the shared channel is closed then every worker has exited; (2) if
every worker has exited then the channel is closed or the closer's step is
enabled, since the completion counter has reached zero; (3) a worker can
only have exited after the cancellation signal fired; (4) once cancellation
fired every running worker's exit step is enabled; (5) when the writer's
consume loop has observed the close, every Result ever sent by a worker has
been received — no send is lost between a worker's last send and the close. -/
theorem scheduler_shutdown (n : Nat) (s : SysState) (h : Reachable n s) :
    (s.closed = true → ∀ (i : Nat) (st : WStatus), s.workers[i]? = some st → st = WStatus.exited) ∧
    ((∀ (i : Nat) (st : WStatus), s.workers[i]? = some st → st = WStatus.exited) →
      s.closed = true ∨ Step s { s with closed := true }) ∧
    (∀ i : Nat, s.workers[i]? = some WStatus.exited → s.cancel = true) ∧
    (s.cancel = true → ∀ i : Nat, s.workers[i]? = some WStatus.running →
      Step s { s with workers := s.workers.set i .exited, counter := s.counter - 1 }) ∧
    (s.writerDone = true → s.received = s.sent) := by
  obtain ⟨i1, i2, i3, i4, i5, i6⟩ := reachable_inv h
  refine ⟨?_, ?_, ?_, ?_, ?_⟩
  · intro hc i st hst
    have hz : s.counter = 0 := i3 hc
    cases st with
    | exited => rfl
    | running =>
        exfalso
        have hpos : 1 ≤ runningCount s.workers :=
          runningCount_pos_of_mem (List.getElem?_mem hst)
        omega
  · intro hall
    cases hcl : s.closed with
    | true => exact Or.inl rfl
    | false =>
        refine Or.inr (Step.close s ?_ hcl)
        have hz : runningCount s.workers = 0 := by
          rw [runningCount, List.countP_eq_zero]
          intro a ha
          obtain ⟨j, hj⟩ := List.mem_iff_getElem?.mp ha
          have he := hall j a hj
          subst he
          simp [isRunning]
        omega
  · intro i hst
    cases hca : s.cancel with
    | true => rfl
    | false =>
        exfalso
        have hfull := i4 hca
        have hmem : WStatus.exited ∈ s.workers := List.getElem?_mem hst
        have hrun : isRunning WStatus.exited = true :=
          (List.countP_eq_length.mp hfull) _ hmem
        simp [isRunning] at hrun
  · intro hca i hst
    exact Step.workerExit s i hst hca
  · intro hw
    obtain ⟨_, hb⟩ := i6 hw
    rw [i5, hb, List.append_nil]

theorem reachable_sFinal : Reachable 1 sFinal := by
  have h0 : Reachable 1 (initSys 1) := Reachable.init
  have h1 : Reachable 1 (⟨true, [WStatus.running], 1, [], false, [], [], false⟩ : SysState) :=
    Reachable.step h0 (Step.cancelFire (initSys 1))
  have h2 : Reachable 1 (⟨true, [WStatus.exited], 0, [], false, [], [], false⟩ : SysState) :=
    Reachable.step h1
      (Step.workerExit (⟨true, [WStatus.running], 1, [], false, [], [], false⟩ : SysState)
        0 (by decide) rfl)
  have h3 : Reachable 1 (⟨true, [WStatus.exited], 0, [], true, [], [], false⟩ : SysState) :=
    Reachable.step h2
      (Step.close (⟨true, [WStatus.exited], 0, [], false, [], [], false⟩ : SysState) rfl rfl)
  exact Reachable.step h3
    (Step.finish (⟨true, [WStatus.exited], 0, [], true, [], [], false⟩ : SysState) rfl rfl rfl)

theorem scheduler_shutdown_witness :
    sFinal.cancel = true ∧ sFinal.received = sFinal.sent :=
  ⟨(scheduler_shutdown 1 sFinal reachable_sFinal).2.2.1 0 (by decide),
   (scheduler_shutdown 1 sFinal reachable_sFinal).2.2.2.2 rfl⟩

end OpenBar
